import Mathlib

/-!
Verification of the ITS device-session protocol engine
(`pdk/apps/CameraITS/pymodules/its/device.py`).

The socket is modelled as the finite list of bytes (resp. already-decoded
JSON messages) that the remote peer sends before the stream ends; reading
past the end of that list models a `recv` that returns zero bytes (EOF).
Python exceptions are modelled by an explicit error type: the two
`its.error.Error` raises are distinguished by their message strings
(`protocolError` for "Invalid command response", `convergenceFailure` for
"3A failed to converge"); `keyError`, `valueError` and `indexError` model
the corresponding Python builtin exceptions, and `timeout` models a
blocking read on a stream that has nothing left to deliver.
-/

namespace Its

/-- Errors raised by the session code. `protocolError` and
`convergenceFailure` are the two `its.error.Error` raises (distinguished by
their message strings); the other three are Python builtin exceptions. -/
inductive ItsErr where
  | protocolError
  | convergenceFailure
  | keyError
  | valueError
  | indexError
  | timeout
deriving DecidableEq, Repr

/-- The `objValue` dictionary of a decoded message. Each field models the
presence or absence of the corresponding dictionary key; the metadata and
properties objects themselves are opaque and modelled by `Nat` identifiers. -/
structure ObjVal where
  captureResult : Option Nat := none
  width : Option Int := none
  height : Option Int := none
  cameraProperties : Option Nat := none
deriving DecidableEq, Repr

/-- A decoded protocol message: the JSON header returned by
`__read_response_from_socket` together with its optional binary trailer.
`strValue` holds the whitespace-split token list of the `strValue` field
(`none` when the key is absent), and `buf` the optional binary buffer. -/
structure Msg where
  tag : String
  strValue : Option (List String) := none
  objValue : Option ObjVal := none
  buf : Option (List Nat) := none
deriving DecidableEq, Repr

/-! ### Frame Reader (`__read_response_from_socket`, byte level)

The byte-level loops of the frame reader. The stream is the list of bytes
available before EOF; a `recv` on the exhausted stream returns zero bytes,
exactly as Python's `socket.recv` does after the peer closes. Fuel counts
loop iterations; `none` means the loop was still running when the fuel ran
out (see the fixpoint lemmas: on EOF the loop state repeats forever). -/

/-- The header loop `while len(chars)==0 or chars[-1] != '\n':
chars.append(sock.recv(1))`. State: accumulated bytes and the unread rest
of the stream. On the exhausted stream `recv(1)` returns zero bytes and
the state is unchanged. -/
def lineRun : Nat → List Nat × List Nat → Option (List Nat × List Nat)
  | 0, _ => none
  | fuel + 1, (acc, rest) =>
    if acc.getLast? = some 10 then some (acc, rest)
    else
      match rest with
      | [] => lineRun fuel (acc, [])
      | b :: rest' => lineRun fuel (acc ++ [b], rest')

/-- The payload loop `while n > 0: nbytes = sock.recv_into(view, n); ...`.
State: bytes collected so far, bytes still needed, unread rest. A
`recv_into` delivers `min need rest.length` bytes (zero once the stream is
exhausted). -/
def payloadRun : Nat → List Nat × Nat × List Nat → Option (List Nat × List Nat)
  | 0, _ => none
  | fuel + 1, (got, need, rest) =>
    if need = 0 then some (got, rest)
    else
      let k := min need rest.length
      payloadRun fuel (got ++ rest.take k, need - k, rest.drop k)

/-- Function `__read_response_from_socket`: read a newline-terminated header line,
decode it (`loads line` models the `bufValueSize` lookup on the
`json.loads` result: `some k` when the header declares a `k`-byte binary
trailer), then optionally read exactly `k` payload bytes. Returns the
header line, the optional buffer and the unread rest of the stream. -/
def readMessage (loads : List Nat → Option Nat) (fuel : Nat) (stream : List Nat) :
    Option (List Nat × Option (List Nat) × List Nat) :=
  match lineRun fuel ([], stream) with
  | none => none
  | some (line, rest) =>
    match loads line with
    | none => some (line, none, rest)
    | some k =>
      match payloadRun fuel ([], k, rest) with
      | none => none
      | some (buf, rest') => some (line, some buf, rest')

/-! ### Capture Orchestrator (`do_capture`, lines 238-263) -/

/-- One per-shot result object assembled by `do_capture`. -/
structure CapObj where
  data : Option (List Nat)
  width : Option Int
  height : Option Int
  format : String
  metadata : Nat
deriving DecidableEq, Repr

/-- The loop state of `do_capture`: the `bufs`, `mds`, `fmts` lists and the
`width`/`height` variables (initially `None`). -/
structure CapState where
  bufs : List (Option (List Nat)) := []
  mds : List Nat := []
  fmts : List String := []
  width : Option Int := none
  height : Option Int := none
deriving DecidableEq, Repr

/-- The guard `jsonObj['tag'] in ['jpegImage','yuvImage'] and buf is not
None` of the capture loop. -/
def isImgMsg (m : Msg) : Bool :=
  (m.tag == "jpegImage" || m.tag == "yuvImage") && m.buf.isSome

/-- Python `tag[:-5]`: all characters of the tag but the last five. -/
def fmtOf (tag : String) : String :=
  ⟨tag.toList.take (tag.toList.length - 5)⟩

/-- One iteration body of the `do_capture` collection loop: image messages
append their buffer and `tag[:-5]` format, `captureResults` messages append
the metadata object and overwrite `width`/`height` (missing dictionary keys
raise `KeyError`), and any other message is silently ignored. -/
def capStep (st : CapState) (m : Msg) : Except ItsErr CapState :=
  if isImgMsg m then
    .ok { st with bufs := st.bufs ++ [m.buf], fmts := st.fmts ++ [fmtOf m.tag] }
  else if m.tag = "captureResults" then
    match m.objValue with
    | none => .error .keyError
    | some ov =>
      match ov.captureResult, ov.width, ov.height with
      | some c, some w, some h =>
        .ok { st with mds := st.mds ++ [c], width := some w, height := some h }
      | _, _, _ => .error .keyError
  else .ok st

/-- The collection loop `while len(bufs) < n or len(mds) < n`. A read on
the exhausted stream blocks and eventually raises `socket.timeout`
(modelled as `.error .timeout`); on normal exit the final state and the
unread rest of the stream are returned. -/
def capLoop (n : Nat) (st : CapState) : List Msg → Except ItsErr (CapState × List Msg)
  | [] =>
    if st.bufs.length < n ∨ st.mds.length < n then .error .timeout else .ok (st, [])
  | m :: rest =>
    if st.bufs.length < n ∨ st.mds.length < n then
      match capStep st m with
      | .error e => .error e
      | .ok st' => capLoop n st' rest
    else .ok (st, m :: rest)

/-- The assembly loop `for i in range(n)`: pair the i-th collected buffer
and format with the i-th collected metadata record, all sharing the final
`width`/`height`. -/
def assemble (n : Nat) (st : CapState) : List CapObj :=
  (List.range n).map fun i =>
    { data := st.bufs.getD i none
      width := st.width
      height := st.height
      format := st.fmts.getD i ""
      metadata := st.mds.getD i 0 }

/-- Lines 238-262 of `do_capture`: run the collection loop from the empty
state, then assemble the `n` result objects. -/
def capRun (n : Nat) (msgs : List Msg) : Except ItsErr (List CapObj × List Msg) :=
  match capLoop n {} msgs with
  | .error e => .error e
  | .ok (st, rest) => .ok (assemble n st, rest)

/-- The caller-visible return of `do_capture`: either a bare single result
object or the full list. -/
inductive CapReturn where
  | single (o : CapObj)
  | burst (os : List CapObj)
deriving DecidableEq, Repr

/-- The request normalisation at the top of `do_capture`: a non-list
request object is wrapped into a one-element list. Request objects are
opaque (`Nat`). -/
def effReqs : Sum Nat (List Nat) → List Nat
  | .inl r => [r]
  | .inr l => l

/-- Function `do_capture`: normalise the request(s), collect `n` images and `n`
metadata records, and return `objs if n>1 else objs[0]` (an `objs[0]` on an
empty list raises `IndexError`). -/
def doCapture (req : Sum Nat (List Nat)) (msgs : List Msg) :
    Except ItsErr (CapReturn × List Msg) :=
  let n := (effReqs req).length
  match capRun n msgs with
  | .error e => .error e
  | .ok (objs, rest) =>
    if n > 1 then .ok (.burst objs, rest)
    else
      match objs with
      | [] => .error .indexError
      | o :: _ => .ok (.single o, rest)

/-! ### Convergence Orchestrator (`do_3a`, lines 146-169) -/

/-- Numeric value of a digit string. -/
def digitsVal (cs : List Char) : Nat :=
  cs.foldl (fun a c => 10 * a + (c.toNat - 48)) 0

/-- Python `int(s)` on a whitespace-split token: an optional sign followed
by decimal digits. -/
def parseInt (s : String) : Option Int :=
  match s.toList with
  | '-' :: cs =>
    if cs ≠ [] ∧ cs.all Char.isDigit then some (-(digitsVal cs : Int)) else none
  | '+' :: cs =>
    if cs ≠ [] ∧ cs.all Char.isDigit then some ((digitsVal cs : Int)) else none
  | cs =>
    if cs ≠ [] ∧ cs.all Char.isDigit then some ((digitsVal cs : Int)) else none

/-- Python `float(s)` on a plain decimal token (optional sign, digits,
optional fractional part), as the exact rational `sign * (d.f) =
sign * digits(d ++ f) / 10 ^ |f|`; exponent forms, `inf`, `nan` and binary
rounding are not needed by the protocol's numeric payloads and are not
modelled. -/
def parseFloat (s : String) : Option ℚ :=
  let sgncs : Int × List Char :=
    match s.toList with
    | '-' :: r => (-1, r)
    | '+' :: r => (1, r)
    | r => (1, r)
  match sgncs.2.splitOn '.' with
  | [ds] =>
    if ds ≠ [] ∧ ds.all Char.isDigit then some (mkRat (sgncs.1 * digitsVal ds) 1)
    else none
  | [ds, fs] =>
    if (ds ++ fs) ≠ [] ∧ (ds ++ fs).all Char.isDigit then
      some (mkRat (sgncs.1 * digitsVal (ds ++ fs)) (10 ^ fs.length))
    else none
  | _ => none

/-- Python list comprehension `[p(x) for x in l]`: parse every token, the
whole list failing (ValueError) as soon as one token fails. -/
def mapParse {α : Type} (p : String → Option α) : List String → Option (List α)
  | [] => some []
  | v :: vs =>
    match p v, mapParse p vs with
    | some x, some xs => some (x :: xs)
    | _, _ => none

/-- The five accumulator variables of `do_3a`, all initially `None`. -/
structure TriState where
  ae_sens : Option Int := none
  ae_exp : Option Int := none
  awb_gains : Option (List ℚ) := none
  awb_transform : Option (List ℚ) := none
  af_dist : Option ℚ := none
deriving DecidableEq, Repr

/-- Result of one `do_3a` loop iteration: keep looping with an updated
state, or break out of the loop on `3aDone`. -/
inductive StepRes where
  | cont (st : TriState)
  | done (st : TriState)
deriving DecidableEq, Repr

/-- One iteration body of the `do_3a` event loop. `vals =
data['strValue'].split()` runs before the tag is examined, so a missing
`strValue` key raises `KeyError` whatever the tag. Then: `aeResult` parses
exactly two integers, `afResult` parses `float(vals[0])`, `awbResult`
parses `vals[:4]` then `vals[4:]` as floats, `3aDone` breaks, and any other
tag raises `its.error.Error('Invalid command response')`. -/
def do3aStep (st : TriState) (m : Msg) : Except ItsErr StepRes :=
  match m.strValue with
  | none => .error .keyError
  | some vals =>
    if m.tag = "aeResult" then
      match mapParse parseInt vals with
      | some [s, e] => .ok (.cont { st with ae_sens := some s, ae_exp := some e })
      | _ => .error .valueError
    else if m.tag = "afResult" then
      match vals with
      | [] => .error .indexError
      | v :: _ =>
        match parseFloat v with
        | some f => .ok (.cont { st with af_dist := some f })
        | none => .error .valueError
    else if m.tag = "awbResult" then
      match mapParse parseFloat (vals.take 4) with
      | none => .error .valueError
      | some g =>
        match mapParse parseFloat (vals.drop 4) with
        | none => .error .valueError
        | some t => .ok (.cont { st with awb_gains := some g, awb_transform := some t })
    else if m.tag = "3aDone" then .ok (.done st)
    else .error .protocolError

/-- The `while True` event loop of `do_3a`; a read on the exhausted stream
is modelled as `.error .timeout`. -/
def do3aLoop (st : TriState) : List Msg → Except ItsErr TriState
  | [] => .error .timeout
  | m :: rest =>
    match do3aStep st m with
    | .error e => .error e
    | .ok (.done st') => .ok st'
    | .ok (.cont st') => do3aLoop st' rest

/-- Lines 166-169 of `do_3a`: the post-loop validation `if (do_ae and
ae_sens == None or do_awb and awb_gains == None or do_af and af_dist ==
None)` raising `its.error.Error('3A failed to converge')`, else the
five-tuple return. -/
def finish3a (do_ae do_awb do_af : Bool) (st : TriState) :
    Except ItsErr (Option Int × Option Int × Option (List ℚ) × Option (List ℚ) × Option ℚ) :=
  if do_ae = true ∧ st.ae_sens = none ∨ do_awb = true ∧ st.awb_gains = none
      ∨ do_af = true ∧ st.af_dist = none then
    .error .convergenceFailure
  else .ok (st.ae_sens, st.ae_exp, st.awb_gains, st.awb_transform, st.af_dist)

/-- Function `do_3a`: run the event loop from the all-`None` state over the incoming
message stream, then validate the requested subsystems. -/
def do3a (do_ae do_awb do_af : Bool) (msgs : List Msg) :
    Except ItsErr (Option Int × Option Int × Option (List ℚ) × Option (List ℚ) × Option ℚ) :=
  match do3aLoop {} msgs with
  | .error e => .error e
  | .ok st => finish3a do_ae do_awb do_af st

/-! ### `get_camera_properties` (lines 103-115) -/

/-- Function `get_camera_properties`: send the command, read one message, raise
`its.error.Error('Invalid command response')` unless its tag is
`cameraProperties`, then return `data['objValue']['cameraProperties']`
(missing keys raise `KeyError`). Returns the properties object and the
unread rest of the stream. -/
def getCameraProperties (msgs : List Msg) : Except ItsErr (Nat × List Msg) :=
  match msgs with
  | [] => .error .timeout
  | m :: rest =>
    if m.tag ≠ "cameraProperties" then .error .protocolError
    else
      match m.objValue with
      | none => .error .keyError
      | some ov =>
        match ov.cameraProperties with
        | none => .error .keyError
        | some p => .ok (p, rest)

/-! ### Spec-side extraction functions

Pure functions of a message list used to state what the capture loop
collects: the image buffers in arrival order, their formats, and the
`captureResults` records (metadata, width, height) in arrival order. -/

/-- Buffers of the image-bearing messages of a stream, in arrival order. -/
def collectedBufs (msgs : List Msg) : List (Option (List Nat)) :=
  msgs.filterMap fun m => if isImgMsg m then some m.buf else none

/-- Formats (`tag[:-5]`) of the image-bearing messages, in arrival order. -/
def collectedFmts (msgs : List Msg) : List String :=
  msgs.filterMap fun m => if isImgMsg m then some (fmtOf m.tag) else none

/-- The (metadata, width, height) record of a fully-populated
`captureResults` message, `none` for any other message. -/
def crRec (m : Msg) : Option (Nat × Int × Int) :=
  if m.tag = "captureResults" then
    match m.objValue with
    | some ov =>
      match ov.captureResult, ov.width, ov.height with
      | some c, some w, some h => some (c, w, h)
      | _, _, _ => none
    | none => none
  else none

/-- The `captureResults` records of a stream, in arrival order. -/
def crRecs (msgs : List Msg) : List (Nat × Int × Int) :=
  msgs.filterMap crRec

/-- The width/height pair after folding a stream over initial values: the
dimensions of the most recent `captureResults` record of the stream, or the
initial values if the stream has none. -/
def lastDims (w h : Option Int) : List Msg → Option Int × Option Int
  | [] => (w, h)
  | m :: ls =>
    match crRec m with
    | none => lastDims w h ls
    | some r => lastDims (some r.2.1) (some r.2.2) ls

/-- The results carried by a `do_capture` return value, as a list. -/
def resultsOf : CapReturn → List CapObj
  | .single o => [o]
  | .burst os => os

/-- Default element used with `List.getD` when indexing result lists. -/
def dfltObj : CapObj :=
  { data := none, width := none, height := none, format := "", metadata := 0 }

/-! ### Concrete protocol messages used as witnesses -/

/-- A yuv image message carrying a 3-byte buffer. -/
def imgMsg : Msg := { tag := "yuvImage", buf := some [1, 2, 3] }

/-- A `captureResults` message: metadata object 7, width 640, height 480. -/
def crMsg : Msg :=
  { tag := "captureResults",
    objValue := some { captureResult := some 7, width := some 640, height := some 480 } }

/-- A message whose tag no operation recognises. -/
def bogusMsg : Msg := { tag := "bogusTag", strValue := some [] }

/-- An `afResult` message reporting focus distance 1.5. -/
def afMsg : Msg := { tag := "afResult", strValue := some ["1.5"] }

/-- The terminal `3aDone` message. -/
def doneMsg : Msg := { tag := "3aDone", strValue := some [] }

/-- An `aeResult` message reporting sensitivity 100, exposure 50. -/
def aeMsg : Msg := { tag := "aeResult", strValue := some ["100", "50"] }

/-- An `awbResult` message with six numeric tokens. -/
def awbMsg : Msg := { tag := "awbResult", strValue := some ["1", "2", "3", "4", "5", "6"] }

/-- A `3aDone` message that lacks the `strValue` key. -/
def noStrMsg : Msg := { tag := "3aDone" }

/-- A well-formed `cameraProperties` response carrying object 42. -/
def propMsg : Msg :=
  { tag := "cameraProperties", objValue := some { cameraProperties := some 42 } }

/-- The capture result assembled from `imgMsg` and `crMsg`. -/
def demoObj : CapObj :=
  { data := some [1, 2, 3], width := some 640, height := some 480,
    format := "yuv", metadata := 7 }

/-- A header decoder declaring a 4-byte binary trailer on every line. -/
def loads4 : List Nat → Option Nat := fun _ => some 4

/-- A header decoder declaring a 2-byte binary trailer on every line. -/
def loads2 : List Nat → Option Nat := fun _ => some 2

end Its


namespace Its

/-! ### Helper lemmas about the capture loop -/

theorem isImg_tag {m : Msg} (h : isImgMsg m = true) :
    (m.tag = "jpegImage" ∨ m.tag = "yuvImage") ∧ m.buf.isSome = true := by
  simpa [isImgMsg] using h

theorem collectedBufs_cons_of_img {m : Msg} (l : List Msg) (h : isImgMsg m = true) :
    collectedBufs (m :: l) = m.buf :: collectedBufs l := by
  simp [collectedBufs, List.filterMap_cons, h]

theorem collectedBufs_cons_of_not {m : Msg} (l : List Msg) (h : isImgMsg m = false) :
    collectedBufs (m :: l) = collectedBufs l := by
  simp [collectedBufs, List.filterMap_cons, h]

theorem collectedFmts_cons_of_img {m : Msg} (l : List Msg) (h : isImgMsg m = true) :
    collectedFmts (m :: l) = fmtOf m.tag :: collectedFmts l := by
  simp [collectedFmts, List.filterMap_cons, h]

theorem collectedFmts_cons_of_not {m : Msg} (l : List Msg) (h : isImgMsg m = false) :
    collectedFmts (m :: l) = collectedFmts l := by
  simp [collectedFmts, List.filterMap_cons, h]

theorem crRec_of_img {m : Msg} (h : isImgMsg m = true) : crRec m = none := by
  rcases (isImg_tag h).1 with h1 | h1 <;> simp [crRec, h1]

theorem crRecs_cons_none {m : Msg} (l : List Msg) (h : crRec m = none) :
    crRecs (m :: l) = crRecs l := by
  simp [crRecs, List.filterMap_cons, h]

theorem crRecs_cons_some {m : Msg} (l : List Msg) {r : Nat × Int × Int}
    (h : crRec m = some r) : crRecs (m :: l) = r :: crRecs l := by
  simp [crRecs, List.filterMap_cons, h]

theorem lastDims_cons_none {m : Msg} (w h' : Option Int) (l : List Msg)
    (h : crRec m = none) : lastDims w h' (m :: l) = lastDims w h' l := by
  simp [lastDims, h]

theorem lastDims_cons_some {m : Msg} (w h' : Option Int) (l : List Msg)
    {c : Nat} {w0 h0 : Int} (h : crRec m = some (c, w0, h0)) :
    lastDims w h' (m :: l) = lastDims (some w0) (some h0) l := by
  simp [lastDims, h]

/-- The folded width/height equal the dimensions of the last
`captureResults` record of the stream, when there is one. -/
theorem lastDims_getLast? (w h : Option Int) (l : List Msg) :
    lastDims w h l =
      match (crRecs l).getLast? with
      | none => (w, h)
      | some r => (some r.2.1, some r.2.2) := by
  induction l generalizing w h with
  | nil => rfl
  | cons m ms ih =>
    cases hr : crRec m with
    | none => rw [lastDims_cons_none w h ms hr, crRecs_cons_none ms hr, ih]
    | some r =>
      obtain ⟨c, w0, h0⟩ := r
      rw [lastDims_cons_some w h ms hr, crRecs_cons_some ms hr, ih]
      cases hcr : crRecs ms with
      | nil => rfl
      | cons x xs =>
        rw [List.getLast?_cons_cons]
        cases hy : (x :: xs).getLast? with
        | none => simp at hy
        | some y => rfl

theorem mem_collectedBufs {x : Option (List Nat)} {l : List Msg}
    (h : x ∈ collectedBufs l) : x ≠ none := by
  simp only [collectedBufs, List.mem_filterMap] at h
  obtain ⟨m, _, hx⟩ := h
  split at hx
  · rename_i him
    cases hx
    have hs := (isImg_tag him).2
    intro hnone
    rw [hnone] at hs
    exact absurd hs (by simp)
  · cases hx

theorem mem_collectedFmts {x : String} {l : List Msg}
    (h : x ∈ collectedFmts l) : x = "jpeg" ∨ x = "yuv" := by
  simp only [collectedFmts, List.mem_filterMap] at h
  obtain ⟨m, _, hx⟩ := h
  split at hx
  · rename_i him
    cases hx
    rcases (isImg_tag him).1 with h1 | h1 <;> rw [h1] <;> [left; right] <;> decide
  · cases hx

theorem collectedFmts_length (l : List Msg) :
    (collectedFmts l).length = (collectedBufs l).length := by
  induction l with
  | nil => rfl
  | cons m ms ih =>
    cases him : isImgMsg m with
    | true =>
      rw [collectedFmts_cons_of_img ms him, collectedBufs_cons_of_img ms him]
      simp [ih]
    | false =>
      rw [collectedFmts_cons_of_not ms him, collectedBufs_cons_of_not ms him]
      exact ih

/-- Invariant of the `do_capture` collection loop: a successful run
consumes a prefix of the stream, appends exactly the image buffers and
formats of that prefix in arrival order to `bufs`/`fmts`, appends exactly
the `captureResults` metadata of that prefix in arrival order to `mds`,
folds `width`/`height` over the `captureResults` records of that prefix,
and exits only once both counts reached `n`. -/
theorem capLoop_spec : ∀ (msgs : List Msg) (n : Nat) (st st' : CapState) (rest : List Msg),
    capLoop n st msgs = .ok (st', rest) →
    ∃ pre, msgs = pre ++ rest ∧
      st'.bufs = st.bufs ++ collectedBufs pre ∧
      st'.fmts = st.fmts ++ collectedFmts pre ∧
      st'.mds = st.mds ++ (crRecs pre).map (fun r => r.1) ∧
      (st'.width, st'.height) = lastDims st.width st.height pre ∧
      n ≤ st'.bufs.length ∧ n ≤ st'.mds.length := by
  intro msgs
  induction msgs with
  | nil =>
    intro n st st' rest h
    rw [capLoop] at h
    by_cases hc : st.bufs.length < n ∨ st.mds.length < n
    · rw [if_pos hc] at h; cases h
    · rw [if_neg hc] at h
      rw [Except.ok.injEq, Prod.mk.injEq] at h
      obtain ⟨rfl, rfl⟩ := h
      push_neg at hc
      exact ⟨[], by simp [collectedBufs, collectedFmts, crRecs, lastDims],
        by simp [collectedBufs], by simp [collectedFmts], by simp [crRecs],
        by simp [lastDims], by omega, by omega⟩
  | cons m ms ih =>
    intro n st st' rest h
    rw [capLoop] at h
    by_cases hc : st.bufs.length < n ∨ st.mds.length < n
    · rw [if_pos hc] at h
      cases hcs : capStep st m with
      | error e => simp [hcs] at h
      | ok st1 =>
        simp only [hcs] at h
        obtain ⟨pre', hms, hbufs, hfmts, hmds, hwh, hn1, hn2⟩ := ih n st1 st' rest h
        refine ⟨m :: pre', by simp [hms], ?_⟩
        rw [capStep] at hcs
        by_cases him : isImgMsg m = true
        · rw [if_pos him] at hcs
          rw [Except.ok.injEq] at hcs
          subst hcs
          simp only at hbufs hfmts hmds hwh
          rw [collectedBufs_cons_of_img pre' him, collectedFmts_cons_of_img pre' him,
            crRecs_cons_none pre' (crRec_of_img him),
            lastDims_cons_none st.width st.height pre' (crRec_of_img him)]
          exact ⟨by simp [hbufs], by simp [hfmts], by simpa using hmds, hwh, hn1, hn2⟩
        · have himf : isImgMsg m = false := by simpa using him
          rw [if_neg him] at hcs
          by_cases htag : m.tag = "captureResults"
          · rw [if_pos htag] at hcs
            cases hov : m.objValue with
            | none => simp [hov] at hcs
            | some ov =>
              simp only [hov] at hcs
              cases hcr : ov.captureResult with
              | none => simp [hcr] at hcs
              | some c =>
                cases hw : ov.width with
                | none => simp [hcr, hw] at hcs
                | some w0 =>
                  cases hh : ov.height with
                  | none => simp [hcr, hw, hh] at hcs
                  | some h0 =>
                    simp only [hcr, hw, hh] at hcs
                    rw [Except.ok.injEq] at hcs
                    subst hcs
                    have hrec : crRec m = some (c, w0, h0) := by
                      simp [crRec, htag, hov, hcr, hw, hh]
                    simp only at hbufs hfmts hmds hwh
                    rw [collectedBufs_cons_of_not pre' himf,
                      collectedFmts_cons_of_not pre' himf,
                      crRecs_cons_some pre' hrec,
                      lastDims_cons_some st.width st.height pre' hrec]
                    exact ⟨hbufs, hfmts, by simp [hmds], hwh, hn1, hn2⟩
          · rw [if_neg htag] at hcs
            rw [Except.ok.injEq] at hcs
            subst hcs
            have hrec : crRec m = none := by simp [crRec, htag]
            rw [collectedBufs_cons_of_not pre' himf, collectedFmts_cons_of_not pre' himf,
              crRecs_cons_none pre' hrec, lastDims_cons_none st.width st.height pre' hrec]
            exact ⟨hbufs, hfmts, hmds, hwh, hn1, hn2⟩
    · rw [if_neg hc] at h
      rw [Except.ok.injEq, Prod.mk.injEq] at h
      obtain ⟨rfl, rfl⟩ := h
      push_neg at hc
      exact ⟨[], rfl, by simp [collectedBufs], by simp [collectedFmts], by simp [crRecs],
        by simp [lastDims], by omega, by omega⟩

end Its

namespace Its

/-- Unfolding of a successful `capRun`: the returned objects are assembled
from a loop state that collected exactly the relevant pieces of the
consumed prefix of the stream. -/
theorem capRun_spec {n : Nat} {msgs : List Msg} {objs : List CapObj} {rest : List Msg}
    (h : capRun n msgs = .ok (objs, rest)) :
    ∃ st pre, objs = assemble n st ∧ msgs = pre ++ rest ∧
      st.bufs = collectedBufs pre ∧ st.fmts = collectedFmts pre ∧
      st.mds = (crRecs pre).map (fun r => r.1) ∧
      (st.width, st.height) = lastDims none none pre ∧
      n ≤ st.bufs.length ∧ n ≤ st.mds.length := by
  unfold capRun at h
  cases hl : capLoop n {} msgs with
  | error e => simp [hl] at h
  | ok p =>
    obtain ⟨st, rest0⟩ := p
    simp only [hl] at h
    rw [Except.ok.injEq, Prod.mk.injEq] at h
    obtain ⟨rfl, rfl⟩ := h
    obtain ⟨pre, hpre, hbufs, hfmts, hmds, hwh, hn1, hn2⟩ :=
      capLoop_spec msgs n {} st rest0 hl
    exact ⟨st, pre, rfl, hpre, by simpa using hbufs, by simpa using hfmts,
      by simpa using hmds, hwh, hn1, hn2⟩

theorem assemble_length (n : Nat) (st : CapState) : (assemble n st).length = n := by
  simp [assemble]

theorem assemble_getD {n i : Nat} (st : CapState) (hi : i < n) :
    (assemble n st).getD i dfltObj =
      { data := st.bufs.getD i none, width := st.width, height := st.height,
        format := st.fmts.getD i "", metadata := st.mds.getD i 0 } := by
  unfold assemble
  rw [List.getD_eq_getElem _ _ (by simpa using hi)]
  simp

theorem mem_assemble {o : CapObj} {n : Nat} {st : CapState} (h : o ∈ assemble n st) :
    ∃ i, i < n ∧
      o = { data := st.bufs.getD i none, width := st.width, height := st.height,
            format := st.fmts.getD i "", metadata := st.mds.getD i 0 } := by
  simp only [assemble, List.mem_map, List.mem_range] at h
  obtain ⟨i, hi, ho⟩ := h
  exact ⟨i, hi, ho.symm⟩

theorem getD_mem {α : Type} (l : List α) (d : α) {i : Nat} (h : i < l.length) :
    l.getD i d ∈ l := by
  rw [List.getD_eq_getElem l d h]
  exact List.getElem_mem h

/-- Claim C1: for every list of N capture requests (N >= 1), a `do_capture`
call that returns successfully returns exactly N results, and every result
has non-null image data, a format that is either yuv or jpeg, and width and
height equal to the width and height carried by the most recently collected
`captureResults` metadata message of that burst. -/
theorem do_capture_results_wellformed :
    ∀ (reqs : List Nat) (msgs : List Msg) (r : CapReturn) (rest : List Msg),
      1 ≤ reqs.length →
      doCapture (.inr reqs) msgs = .ok (r, rest) →
      ∃ pre c w h, msgs = pre ++ rest ∧
        (crRecs pre).getLast? = some (c, w, h) ∧
        (resultsOf r).length = reqs.length ∧
        ∀ o ∈ resultsOf r, o.data ≠ none ∧ (o.format = "yuv" ∨ o.format = "jpeg") ∧
          o.width = some w ∧ o.height = some h := by
  intro reqs msgs r rest hn h
  unfold doCapture at h
  simp only [effReqs] at h
  cases hcap : capRun reqs.length msgs with
  | error e => simp [hcap] at h
  | ok p =>
    obtain ⟨objs, rest0⟩ := p
    simp only [hcap] at h
    obtain ⟨st, pre, hobjs, hpre, hbufs, hfmts, hmds, hwh, hn1, hn2⟩ := capRun_spec hcap
    have hlen : objs.length = reqs.length := by rw [hobjs, assemble_length]
    have hcr_ne : crRecs pre ≠ [] := by
      intro hnil
      rw [hmds, hnil] at hn2
      have hz : reqs.length ≤ 0 := by simpa using hn2
      omega
    obtain ⟨rlast, hrlast⟩ : ∃ x, (crRecs pre).getLast? = some x := by
      cases hl : (crRecs pre).getLast? with
      | none => rw [List.getLast?_eq_none_iff] at hl; exact absurd hl hcr_ne
      | some x => exact ⟨x, rfl⟩
    obtain ⟨c, w, h0⟩ := rlast
    have hdims : st.width = some w ∧ st.height = some h0 := by
      rw [lastDims_getLast? none none pre, hrlast] at hwh
      exact ⟨congrArg Prod.fst hwh, congrArg Prod.snd hwh⟩
    have hprops : ∀ o ∈ objs, o.data ≠ none ∧ (o.format = "yuv" ∨ o.format = "jpeg") ∧
        o.width = some w ∧ o.height = some h0 := by
      intro o ho
      rw [hobjs] at ho
      obtain ⟨i, hi, rfl⟩ := mem_assemble ho
      refine ⟨?_, ?_, hdims.1, hdims.2⟩
      · show st.bufs.getD i none ≠ none
        apply mem_collectedBufs (l := pre)
        rw [← hbufs]
        exact getD_mem st.bufs none (by omega)
      · show st.fmts.getD i "" = "yuv" ∨ st.fmts.getD i "" = "jpeg"
        have hflen : i < st.fmts.length := by
          rw [hfmts, collectedFmts_length, ← hbufs]; omega
        have hmem : st.fmts.getD i "" ∈ collectedFmts pre := by
          rw [← hfmts]
          exact getD_mem st.fmts "" hflen
        rcases mem_collectedFmts hmem with h1 | h1
        · right; exact h1
        · left; exact h1
    by_cases hgt : reqs.length > 1
    · rw [if_pos hgt] at h
      rw [Except.ok.injEq, Prod.mk.injEq] at h
      obtain ⟨rfl, rfl⟩ := h
      exact ⟨pre, c, w, h0, hpre, hrlast, by simpa using hlen, by simpa [resultsOf] using hprops⟩
    · rw [if_neg hgt] at h
      have h1 : reqs.length = 1 := by omega
      cases objs with
      | nil => rw [h1] at hlen; cases hlen
      | cons o tl =>
        rw [Except.ok.injEq, Prod.mk.injEq] at h
        obtain ⟨rfl, rfl⟩ := h
        have htl : tl = [] := by
          rw [h1] at hlen
          simpa using hlen
        refine ⟨pre, c, w, h0, hpre, hrlast, by simp [resultsOf, h1], ?_⟩
        intro o' ho'
        apply hprops
        subst htl
        simpa [resultsOf] using ho'

/-- Claim C2: the i-th result of a successful capture run pairs the i-th
image buffer in the order the image messages were collected with the i-th
metadata record in the order the `captureResults` messages were collected;
no embedded correlation id exists or is consulted. -/
theorem do_capture_positional_pairing :
    ∀ (n : Nat) (msgs : List Msg) (objs : List CapObj) (rest : List Msg),
      capRun n msgs = .ok (objs, rest) →
      ∃ pre, msgs = pre ++ rest ∧
        ∀ i, i < n →
          (objs.getD i dfltObj).data = (collectedBufs pre).getD i none ∧
          (objs.getD i dfltObj).metadata = ((crRecs pre).map (fun r => r.1)).getD i 0 := by
  intro n msgs objs rest h
  obtain ⟨st, pre, hobjs, hpre, hbufs, hfmts, hmds, hwh, hn1, hn2⟩ := capRun_spec h
  refine ⟨pre, hpre, ?_⟩
  intro i hi
  rw [hobjs, assemble_getD st hi]
  rw [hbufs, hmds]
  exact ⟨rfl, rfl⟩

end Its

namespace Its

/-- Claim C8: `do_capture` returns a bare single result object exactly when
the effective request list has length 1 (a single non-list request is
wrapped into a one-element list), and the full ordered result list when the
length is greater than 1. -/
theorem do_capture_collapsing :
    ∀ (req : Sum Nat (List Nat)) (msgs : List Msg) (r : CapReturn) (rest : List Msg),
      doCapture req msgs = .ok (r, rest) →
      ((∃ o, r = .single o) ↔ (effReqs req).length = 1) ∧
      (1 < (effReqs req).length →
        ∃ objs, r = .burst objs ∧ objs.length = (effReqs req).length) ∧
      ∀ x : Nat, effReqs (.inl x) = [x] := by
  intro req msgs r rest h
  unfold doCapture at h
  cases hcap : capRun (effReqs req).length msgs with
  | error e => simp [hcap] at h
  | ok p =>
    obtain ⟨objs, rest0⟩ := p
    simp only [hcap] at h
    have hlen : objs.length = (effReqs req).length := by
      obtain ⟨st, pre, hobjs, _⟩ := capRun_spec hcap
      rw [hobjs, assemble_length]
    by_cases hgt : (effReqs req).length > 1
    · rw [if_pos hgt] at h
      rw [Except.ok.injEq, Prod.mk.injEq] at h
      obtain ⟨rfl, rfl⟩ := h
      refine ⟨?_, ?_, fun x => rfl⟩
      · constructor
        · rintro ⟨o, ho⟩
          cases ho
        · intro h1
          omega
      · intro _
        exact ⟨objs, rfl, hlen⟩
    · rw [if_neg hgt] at h
      cases objs with
      | nil => cases h
      | cons o tl =>
        rw [Except.ok.injEq, Prod.mk.injEq] at h
        obtain ⟨rfl, rfl⟩ := h
        have h1 : (effReqs req).length = 1 := by
          simp only [List.length_cons] at hlen
          omega
        refine ⟨⟨fun _ => h1, fun _ => ⟨o, rfl⟩⟩, fun hcontra => absurd hcontra (by omega),
          fun x => rfl⟩

/-- Claim C3 (amended): a message whose tag the operation does not
recognise raises `ProtocolError` in the `do_3a` loop, but the `do_capture`
collection loop silently ignores such a message (there is no raising arm)
and keeps waiting. -/
theorem unknown_tag_mismatch_handling :
    (∀ (st : TriState) (tag : String) (vals : List String),
       tag ≠ "aeResult" → tag ≠ "afResult" → tag ≠ "awbResult" → tag ≠ "3aDone" →
       do3aStep st { tag := tag, strValue := some vals } = .error .protocolError) ∧
    (∀ (n : Nat) (st : CapState) (m : Msg) (rest : List Msg),
       isImgMsg m = false → m.tag ≠ "captureResults" →
       st.bufs.length < n ∨ st.mds.length < n →
       capLoop n st (m :: rest) = capLoop n st rest) := by
  constructor
  · intro st tag vals h1 h2 h3 h4
    simp [do3aStep, h1, h2, h3, h4]
  · intro n st m rest him htag hcond
    rw [capLoop, if_pos hcond]
    have hst : capStep st m = .ok st := by simp [capStep, him, htag]
    simp only [hst]

/-- Counterexample to claim C3 as stated: a burst capture for one shot that
receives a message with an unrecognised tag before either count reached N
still returns successfully, raising no `ProtocolError` at all. -/
theorem capture_unknown_tag_no_error_cex :
    capRun 1 [bogusMsg, imgMsg, crMsg] = .ok ([demoObj], []) := by rfl

/-- Witness for claim C1 at a concrete one-shot burst. -/
theorem do_capture_results_wellformed_witness :
    ∃ pre c w h, ([imgMsg, crMsg] : List Msg) = pre ++ [] ∧
      (crRecs pre).getLast? = some (c, w, h) ∧
      (resultsOf (.single demoObj)).length = ([5] : List Nat).length ∧
      ∀ o ∈ resultsOf (.single demoObj), o.data ≠ none ∧
        (o.format = "yuv" ∨ o.format = "jpeg") ∧ o.width = some w ∧ o.height = some h :=
  do_capture_results_wellformed [5] [imgMsg, crMsg] (.single demoObj) [] (by decide) (by rfl)

/-- Witness for claim C2 at a concrete one-shot burst. -/
theorem do_capture_positional_pairing_witness :
    ∃ pre, ([imgMsg, crMsg] : List Msg) = pre ++ [] ∧
      ∀ i, i < 1 →
        (([demoObj] : List CapObj).getD i dfltObj).data = (collectedBufs pre).getD i none ∧
        (([demoObj] : List CapObj).getD i dfltObj).metadata =
          ((crRecs pre).map (fun r => r.1)).getD i 0 :=
  do_capture_positional_pairing 1 [imgMsg, crMsg] [demoObj] [] (by rfl)

/-- Witness for claim C8 at a concrete single (non-list) request. -/
theorem do_capture_collapsing_witness :
    ((∃ o, CapReturn.single demoObj = .single o) ↔
      (effReqs (Sum.inl 5)).length = 1) ∧
    (1 < (effReqs (Sum.inl 5)).length →
      ∃ objs, CapReturn.single demoObj = .burst objs ∧
        objs.length = (effReqs (Sum.inl 5)).length) ∧
    (∀ x : Nat, effReqs (.inl x) = [x]) :=
  do_capture_collapsing (Sum.inl 5) [imgMsg, crMsg] (.single demoObj) [] (by rfl)

/-- Witness for the amended claim C3: the unknown-tag message `bogusMsg`
raises `ProtocolError` in the 3A loop but is skipped by the capture loop. -/
theorem unknown_tag_mismatch_handling_witness :
    do3aStep {} { tag := "bogusTag", strValue := some [] } = .error .protocolError ∧
    capLoop 1 {} (bogusMsg :: [imgMsg, crMsg]) = capLoop 1 {} [imgMsg, crMsg] :=
  ⟨unknown_tag_mismatch_handling.1 {} "bogusTag" [] (by decide) (by decide) (by decide)
      (by decide),
    unknown_tag_mismatch_handling.2 1 {} bogusMsg [imgMsg, crMsg] (by decide) (by decide)
      (Or.inl (by decide))⟩

end Its

namespace Its

/-! ### Helper lemmas about the 3A parsers and the frame reader -/

theorem mapParse_take {α : Type} (p : String → Option α) :
    ∀ (l : List String) (ys : List α), mapParse p l = some ys →
      ∀ k, mapParse p (l.take k) = some (ys.take k) := by
  intro l
  induction l with
  | nil =>
    intro ys h k
    simp only [mapParse, Option.some.injEq] at h
    subst h
    simp [mapParse]
  | cons v vs ih =>
    intro ys h k
    rw [mapParse] at h
    cases hp : p v with
    | none => rw [hp] at h; cases h
    | some x =>
      cases hm : mapParse p vs with
      | none => rw [hp, hm] at h; cases h
      | some xs =>
        rw [hp, hm] at h
        rw [Option.some.injEq] at h
        subst h
        cases k with
        | zero => simp [mapParse]
        | succ k' =>
          simp only [List.take_succ_cons]
          rw [mapParse, hp, ih xs hm k']

theorem mapParse_drop {α : Type} (p : String → Option α) :
    ∀ (l : List String) (ys : List α), mapParse p l = some ys →
      ∀ k, mapParse p (l.drop k) = some (ys.drop k) := by
  intro l
  induction l with
  | nil =>
    intro ys h k
    simp only [mapParse, Option.some.injEq] at h
    subst h
    simp [mapParse]
  | cons v vs ih =>
    intro ys h k
    rw [mapParse] at h
    cases hp : p v with
    | none => rw [hp] at h; cases h
    | some x =>
      cases hm : mapParse p vs with
      | none => rw [hp, hm] at h; cases h
      | some xs =>
        rw [hp, hm] at h
        rw [Option.some.injEq] at h
        subst h
        cases k with
        | zero => rw [List.drop_zero, List.drop_zero, mapParse, hp, hm]
        | succ k' =>
          simp only [List.drop_succ_cons]
          exact ih xs hm k'

theorem lineRun_eof : ∀ (acc : List Nat), acc.getLast? ≠ some 10 →
    ∀ fuel, lineRun fuel (acc, []) = none := by
  intro acc h fuel
  induction fuel with
  | zero => rfl
  | succ f ih =>
    rw [lineRun, if_neg h]
    exact ih

theorem payloadRun_eof : ∀ (got : List Nat) (need : Nat), need ≠ 0 →
    ∀ fuel, payloadRun fuel (got, need, []) = none := by
  intro got need h fuel
  induction fuel generalizing got with
  | zero => rfl
  | succ f ih =>
    simp only [payloadRun]
    rw [if_neg h]
    simpa using ih got

theorem payloadRun_length :
    ∀ (fuel : Nat) (got : List Nat) (need : Nat) (rest out rem : List Nat),
      payloadRun fuel (got, need, rest) = some (out, rem) →
      out.length = got.length + need := by
  intro fuel
  induction fuel with
  | zero => intro got need rest out rem h; cases h
  | succ f ih =>
    intro got need rest out rem h
    simp only [payloadRun] at h
    by_cases hn : need = 0
    · rw [if_pos hn] at h
      rw [Option.some.injEq, Prod.mk.injEq] at h
      obtain ⟨rfl, rfl⟩ := h
      omega
    · rw [if_neg hn] at h
      have hrec := ih _ _ _ _ _ h
      rw [List.length_append, List.length_take] at hrec
      omega

theorem readMessage_buffer_exact :
    ∀ (loads : List Nat → Option Nat) (fuel : Nat) (stream line buf rest : List Nat),
      readMessage loads fuel stream = some (line, some buf, rest) →
      ∃ k, loads line = some k ∧ buf.length = k := by
  intro loads fuel stream line buf rest h
  unfold readMessage at h
  cases hl : lineRun fuel ([], stream) with
  | none => simp [hl] at h
  | some p =>
    obtain ⟨line0, rest0⟩ := p
    simp only [hl] at h
    cases hk : loads line0 with
    | none => simp [hk] at h
    | some k =>
      simp only [hk] at h
      cases hp : payloadRun fuel ([], k, rest0) with
      | none => simp [hp] at h
      | some q =>
        obtain ⟨buf0, rest1⟩ := q
        simp only [hp] at h
        rw [Option.some.injEq, Prod.mk.injEq, Prod.mk.injEq] at h
        obtain ⟨rfl, hbuf, rfl⟩ := h
        have hb : buf0 = buf := by simpa using hbuf
        subst hb
        exact ⟨k, hk, by simpa using payloadRun_length fuel [] k rest0 buf0 rest1 hp⟩

/-- Claim C4 (evaluation at the failing input): with no subsystem
requested, a stray `aeResult` event is still recorded and returned in the
AE slots, contradicting the spec and the function's own docstring ("None
if do_ae is False"). -/
theorem do3a_records_unrequested_ae :
    do3a false false false [aeMsg, doneMsg] =
      .ok (some 100, some 50, none, none, none) := by rfl

/-- Claim C5: if the terminal `3aDone` message ends the loop while the slot
of at least one requested subsystem is still unpopulated, `do_3a` fails
with the convergence-failure error; in particular with AE and AF requested
and only an `afResult` before `3aDone`. -/
theorem do3a_convergence_failure :
    (∀ (a b f : Bool) (msgs : List Msg) (st : TriState),
        do3aLoop {} msgs = .ok st →
        (a = true ∧ st.ae_sens = none) ∨ (b = true ∧ st.awb_gains = none) ∨
          (f = true ∧ st.af_dist = none) →
        do3a a b f msgs = .error .convergenceFailure) ∧
    do3a true false true [afMsg, doneMsg] = .error .convergenceFailure := by
  constructor
  · intro a b f msgs st hloop hmiss
    unfold do3a
    simp only [hloop]
    unfold finish3a
    rw [if_pos hmiss]
  · rfl

/-- Witness for claim C5 at the concrete stream of the claim. -/
theorem do3a_convergence_failure_witness :
    do3a true false true [afMsg, doneMsg] = .error .convergenceFailure :=
  do3a_convergence_failure.1 true false true [afMsg, doneMsg]
    { af_dist := some (mkRat 3 2) } (by rfl) (Or.inl ⟨rfl, rfl⟩)

/-- Claim C7: an `awbResult` whose token list parses to m >= 4 floats
records the first four as the gains and the remaining m-4 as the transform;
an `aeResult` records its two integers as (sensitivity, exposure); an
`afResult` records its first value as the focus distance. -/
theorem do3a_parse_recording :
    (∀ (st : TriState) (vals : List String) (qs : List ℚ),
        mapParse parseFloat vals = some qs → 4 ≤ vals.length →
        do3aStep st { tag := "awbResult", strValue := some vals } =
          .ok (.cont { st with awb_gains := some (qs.take 4),
                               awb_transform := some (qs.drop 4) })) ∧
    (∀ (st : TriState) (v1 v2 : String) (s e : Int),
        parseInt v1 = some s → parseInt v2 = some e →
        do3aStep st { tag := "aeResult", strValue := some [v1, v2] } =
          .ok (.cont { st with ae_sens := some s, ae_exp := some e })) ∧
    (∀ (st : TriState) (v : String) (vs : List String) (f : ℚ),
        parseFloat v = some f →
        do3aStep st { tag := "afResult", strValue := some (v :: vs) } =
          .ok (.cont { st with af_dist := some f })) := by
  refine ⟨?_, ?_, ?_⟩
  · intro st vals qs hq hlen
    have ht := mapParse_take parseFloat vals qs hq 4
    have hd := mapParse_drop parseFloat vals qs hq 4
    simp [do3aStep, ht, hd]
  · intro st v1 v2 s e h1 h2
    simp [do3aStep, mapParse, h1, h2]
  · intro st v vs f hf
    simp [do3aStep, hf]

/-- Witness for claim C7 at concrete numeric token lists. -/
theorem do3a_parse_recording_witness :
    do3aStep {} awbMsg =
      .ok (.cont { awb_gains := some [1, 2, 3, 4], awb_transform := some [5, 6] }) ∧
    do3aStep {} aeMsg = .ok (.cont { ae_sens := some 100, ae_exp := some 50 }) ∧
    do3aStep {} afMsg = .ok (.cont { af_dist := some (mkRat 3 2) }) :=
  ⟨do3a_parse_recording.1 {} ["1", "2", "3", "4", "5", "6"] [1, 2, 3, 4, 5, 6]
      (by decide) (by decide),
   do3a_parse_recording.2.1 {} "100" "50" 100 50 (by decide) (by decide),
   do3a_parse_recording.2.2 {} "1.5" [] (mkRat 3 2) (by decide)⟩

/-- Claim C10: the `do_3a` loop reads and splits `strValue` before it
examines the tag, so a message lacking that field, whatever its tag, makes
the operation fail with the untyped `KeyError`, not with `ProtocolError`. -/
theorem do3a_strValue_before_tag :
    ∀ (st : TriState) (m : Msg) (rest : List Msg),
      m.strValue = none →
      do3aLoop st (m :: rest) = .error .keyError ∧
      ItsErr.keyError ≠ ItsErr.protocolError := by
  intro st m rest h
  constructor
  · rw [do3aLoop]
    have hstep : do3aStep st m = .error .keyError := by
      rw [do3aStep, h]
    simp only [hstep]
  · decide

/-- Witness for claim C10 at a `3aDone` message without `strValue`. -/
theorem do3a_strValue_before_tag_witness :
    do3aLoop {} [noStrMsg] = .error .keyError ∧
    ItsErr.keyError ≠ ItsErr.protocolError :=
  do3a_strValue_before_tag {} noStrMsg [] rfl

/-- Claim C9: `get_camera_properties` reads one message, returns the nested
properties object exactly on the expected tag (one message consumed, rest
untouched), and raises `ProtocolError` on every other tag. -/
theorem get_camera_properties_tag_check :
    ∀ (m : Msg) (rest : List Msg),
      (m.tag ≠ "cameraProperties" →
        getCameraProperties (m :: rest) = .error .protocolError) ∧
      (∀ ov p, m.objValue = some ov → ov.cameraProperties = some p →
        m.tag = "cameraProperties" → getCameraProperties (m :: rest) = .ok (p, rest)) ∧
      (∀ p rest', getCameraProperties (m :: rest) = .ok (p, rest') →
        m.tag = "cameraProperties" ∧ rest' = rest) := by
  intro m rest
  refine ⟨?_, ?_, ?_⟩
  · intro h
    simp [getCameraProperties, h]
  · intro ov p hov hp htag
    simp [getCameraProperties, htag, hov, hp]
  · intro p rest' h
    rw [getCameraProperties] at h
    by_cases htag : m.tag = "cameraProperties"
    · refine ⟨htag, ?_⟩
      rw [if_neg (by simp [htag])] at h
      cases hov : m.objValue with
      | none => simp [hov] at h
      | some ov =>
        simp only [hov] at h
        cases hp : ov.cameraProperties with
        | none => simp [hp] at h
        | some q =>
          simp only [hp] at h
          rw [Except.ok.injEq, Prod.mk.injEq] at h
          exact h.2.symm
    · rw [if_pos htag] at h
      cases h

/-- Witness for claim C9 at a well-formed properties message and at a
mismatched tag. -/
theorem get_camera_properties_tag_check_witness :
    getCameraProperties [propMsg] = .ok (42, []) ∧
    getCameraProperties [bogusMsg] = .error .protocolError :=
  ⟨(get_camera_properties_tag_check propMsg []).2.1 { cameraProperties := some 42 } 42
      rfl rfl rfl,
   (get_camera_properties_tag_check bogusMsg []).1 (by decide)⟩

/-- Claim C6 (amended): when the transport ends before the header's newline
or before the declared payload is complete, the reader never raises
anything (there is no close detection): the loop re-issues the zero-length
read forever; and a buffer that is returned always has exactly the declared
length, so no short or corrupt buffer can ever be returned. -/
theorem reader_eof_spins_never_short :
    (∀ (acc : List Nat), acc.getLast? ≠ some 10 →
      ∀ fuel, lineRun fuel (acc, []) = none) ∧
    (∀ (got : List Nat) (need : Nat), need ≠ 0 →
      ∀ fuel, payloadRun fuel (got, need, []) = none) ∧
    (∀ (loads : List Nat → Option Nat) (fuel : Nat) (stream line buf rest : List Nat),
      readMessage loads fuel stream = some (line, some buf, rest) →
      ∃ k, loads line = some k ∧ buf.length = k) :=
  ⟨lineRun_eof, payloadRun_eof, readMessage_buffer_exact⟩

/-- Counterexample to claim C6 as stated: a header declaring a 4-byte
buffer followed by only 2 bytes and stream end makes the reader return
nothing at all (it spins on the zero-length read), rather than failing with
a transport-closed error. -/
theorem reader_eof_no_close_error_cex :
    readMessage loads4 50 [72, 10, 1, 2] = none := by rfl

/-- Witness for the amended claim C6. -/
theorem reader_eof_spins_never_short_witness :
    lineRun 30 ([72], []) = none ∧
    payloadRun 30 ([1, 2], 2, []) = none ∧
    ∃ k, loads2 [72, 10] = some k ∧ ([1, 2] : List Nat).length = k :=
  ⟨reader_eof_spins_never_short.1 [72] (by decide) 30,
   reader_eof_spins_never_short.2.1 [1, 2] 2 (by decide) 30,
   reader_eof_spins_never_short.2.2 loads2 50 [72, 10, 1, 2] [72, 10] [1, 2] [] (by rfl)⟩

end Its
